import Mathlib

/-!
Shallow embedding of `vehicle_manager.py` (class `VehicleManager`) and the
data model it operates on.

Modelling conventions:
* Python floats are idealised as real numbers (`ℝ`) inside the geodesic
  computation (`_get_distance`), and as rationals (`ℚ`) in the stored record
  fields, so that records have decidable equality, exactly as Python record
  values (finite binary rationals) do.
* The HTTP layer is external: functions that in Python fetch data over HTTP
  take the fetched collection as an explicit argument (the deserialized
  result of `GET /vehicles`, resp. `GET /vehicles/{id}`).
* A Python expression that can raise is embedded as an `Option`-valued
  function, `none` being the raised exception.
-/

open Real

/-- Coordinates dataclass of vehicle_manager.py: a latitude/longitude pair
in degrees, used only as argument shape for the distance computation. -/
structure Coordinates where
  latitude : ℝ
  longitude : ℝ

/-- Vehicle dataclass of vehicle_manager.py.  Field order follows the
source; `id` defaults to `None` there, embedded as `Option Int` with
`none` for the unassigned state.  Numeric payload fields are embedded as
rationals so that equality of records is decidable. -/
structure Vehicle where
  name : String
  model : String
  year : Int
  color : String
  price : ℚ
  latitude : ℚ
  longitude : ℚ
  id : Option Int := Option.none
deriving DecidableEq, Repr

/-- Radius of earth in metres (constant `R_M` in the source). -/
noncomputable def R_M : ℝ := 6371000

/-- Python math.radians: degree to radian conversion. -/
noncomputable def radians (x : ℝ) : ℝ := x * π / 180

/-- Intermediate value `P` of `VehicleManager._get_distance` (the haversine
term `sin²(Δlat/2) + cos(lat1)·cos(lat2)·sin²(Δlon/2)`), computed, as in
the source, after converting the four degree values to radians. -/
noncomputable def haversineP (coord1 coord2 : Coordinates) : ℝ :=
  let lo1 := radians coord1.longitude
  let lo2 := radians coord2.longitude
  let la1 := radians coord1.latitude
  let la2 := radians coord2.latitude
  let d_lo := lo2 - lo1
  let d_la := la2 - la1
  Real.sin (d_la / 2) ^ 2 + Real.cos la1 * Real.cos la2 * Real.sin (d_lo / 2) ^ 2

/-- Method `VehicleManager._get_distance`: haversine great-circle distance in
metres between two coordinate pairs, `2·asin(√P)·R_M` with `P = haversineP`.
Python `math.asin` raises a ValueError outside `[-1, 1]`; `Real.arcsin`
agrees with it on `[-1, 1]`, and `haversineP_le_one` below shows the
argument stays inside that domain. -/
noncomputable def _get_distance (coord1 coord2 : Coordinates) : ℝ :=
  2 * Real.arcsin (Real.sqrt (haversineP coord1 coord2)) * R_M

/-- Coordinates built from a vehicle record, as in
`Coordinates(v.latitude, v.longitude)` at the call sites of `_get_distance`. -/
noncomputable def vehicleCoord (v : Vehicle) : Coordinates :=
  ⟨(v.latitude : ℝ), (v.longitude : ℝ)⟩

/-- One iteration of the loop body of `VehicleManager.get_nearest_vehicle`.
The running state `(min_distance, nearest_vehicle)` starts in Python as
`(float('inf'), None)` and `nearest_vehicle` is `None` exactly while
`min_distance` is still `inf`, so the state is embedded as
`Option (α × Vehicle)` with `none` for that initial state; any distance
compares `< inf`, hence the `none` branch always records the candidate.
The distance function is a parameter, instantiated with `_get_distance`
in the theorems, exactly as the source calls `self._get_distance`. -/
noncomputable def nearestStep {α : Type} [LinearOrder α] (dist : Coordinates → Coordinates → α)
    (coord1 : Coordinates) (id : Int)
    (acc : Option (α × Vehicle)) (v : Vehicle) : Option (α × Vehicle) :=
  if v.id ≠ some id then
    let d := dist coord1 (vehicleCoord v)
    match acc with
    | Option.none => some (d, v)
    | some (m, n) => if d < m then some (d, v) else some (m, n)
  else acc

/-- Method `VehicleManager.get_nearest_vehicle`.  In the source it issues
`get_vehicles()` (the fetched list `vehicles`) and `get_vehicle(id)` (whose
coordinates are `coord1`), then scans the list with the loop embodied in
`nearestStep` and returns `nearest_vehicle` (possibly still `None`). -/
noncomputable def get_nearest_vehicle {α : Type} [LinearOrder α]
    (dist : Coordinates → Coordinates → α) (id : Int)
    (coord1 : Coordinates) (vehicles : List Vehicle) : Option Vehicle :=
  (vehicles.foldl (nearestStep dist coord1 id) Option.none).map Prod.snd

/-- Value of one field of the JSON object for a vehicle.  The remote API
serves vehicle objects keyed by the record field names; a comparison
between values of different JSON types is unequal, as `==` is in Python
between values of different types. -/
inductive FieldVal where
  | str (s : String)
  | int (n : Int)
  | num (q : ℚ)
  | oid (o : Option Int)
deriving DecidableEq, Repr

/-- Dictionary view of a fetched vehicle JSON object (`vehicle_data` in the
source): the keys are exactly the record field names, `none` for any other
key (so `key in vehicle_data` is `isSome`). -/
def vehicleField (v : Vehicle) : String → Option FieldVal
  | "name" => some (FieldVal.str v.name)
  | "model" => some (FieldVal.str v.model)
  | "year" => some (FieldVal.int v.year)
  | "color" => some (FieldVal.str v.color)
  | "price" => some (FieldVal.num v.price)
  | "latitude" => some (FieldVal.num v.latitude)
  | "longitude" => some (FieldVal.num v.longitude)
  | "id" => some (FieldVal.oid v.id)
  | _ => Option.none

/-- Test `key in vehicle_data and vehicle_data[key] == value` from the inner
loop of `VehicleManager.filter_vehicles`, for one `key, value` pair of
`params.items()`: when `key` is not a field name the left side is `none`,
which differs from `some value`, exactly as the `key in vehicle_data`
conjunct short-circuits to false. -/
def matchesParam (v : Vehicle) (p : String × FieldVal) : Bool :=
  vehicleField v p.1 == some p.2

/-- Inner loop of `VehicleManager.filter_vehicles` for one fetched record:
for each `key, value` pair of `params.items()` (in insertion order) that the
record matches, `Vehicle(**vehicle_data)` is appended to the result list. -/
def filterInner (v : Vehicle) : List (String × FieldVal) → List Vehicle
  | [] => []
  | p :: ps => if matchesParam v p then v :: filterInner v ps else filterInner v ps

/-- Method `VehicleManager.filter_vehicles`: outer loop over the fetched
collection (`vehicles_data`, passed here explicitly), inner loop over the
filter parameters, appending the parsed vehicle once per matching pair. -/
def filter_vehicles (params : List (String × FieldVal)) : List Vehicle → List Vehicle
  | [] => []
  | v :: vs => filterInner v params ++ filter_vehicles params vs

/-- Truthiness of `vehicle.id` in the generator
`vehicle.id for vehicle in self.get_vehicles() if vehicle.id`:
Python `if vehicle.id` is false for `None` and for `0`. -/
def truthyId : Option Int → Bool
  | Option.none => false
  | some n => n != 0

/-- The sequence `vehicle.id for vehicle in self.get_vehicles() if vehicle.id`
fed to `max(...)` in `VehicleManager.add_vehicle`. -/
def truthyIds (fetched : List Vehicle) : List Int :=
  fetched.filterMap (fun v => if truthyId v.id then v.id else Option.none)

/-- Method `VehicleManager.add_vehicle`, up to and including construction of
the POST payload.  In the source `data = vars(vehicle)` aliases the
argument's own attribute dictionary, so `data['id'] = max(...) + 1` both
builds the payload and mutates the caller's record: the returned record is
at once the POST payload and the post-call state of the argument `vehicle`.
`max(...)` on an empty sequence raises a ValueError before any POST is
issued; that exception is the `none` result.  Parsing of the HTTP response
(`Vehicle(**response.json())`) is external and not part of this model. -/
def add_vehicle (vehicle : Vehicle) (fetched : List Vehicle) : Option Vehicle :=
  match (truthyIds fetched).max? with
  | Option.none => Option.none
  | some m => some { vehicle with id := some (m + 1) }

/-! Theorems.  Helper lemmas first, then one theorem per claim. -/

/-- Half-angle form of the squared sine. -/
theorem sin_half_sq (x : ℝ) : Real.sin (x / 2) ^ 2 = (1 - Real.cos x) / 2 := by
  have h := Real.sin_sq_eq_half_sub (x / 2)
  rw [show (2 : ℝ) * (x / 2) = x by ring] at h
  rw [h]; ring

/-- Closed form of the haversine term through the spherical law of cosines. -/
theorem haversineP_eq (c1 c2 : Coordinates) :
    haversineP c1 c2 =
      (1 - (Real.sin (radians c1.latitude) * Real.sin (radians c2.latitude) +
        Real.cos (radians c1.latitude) * Real.cos (radians c2.latitude) *
          Real.cos (radians c2.longitude - radians c1.longitude))) / 2 := by
  show Real.sin ((radians c2.latitude - radians c1.latitude) / 2) ^ 2 +
      Real.cos (radians c1.latitude) * Real.cos (radians c2.latitude) *
        Real.sin ((radians c2.longitude - radians c1.longitude) / 2) ^ 2 = _
  rw [sin_half_sq, sin_half_sq, Real.cos_sub]
  ring

/-- The haversine term never exceeds 1, whatever the real inputs. -/
theorem haversineP_le_one (c1 c2 : Coordinates) : haversineP c1 c2 ≤ 1 := by
  rw [haversineP_eq]
  have h1 := Real.sin_sq_add_cos_sq (radians c1.latitude)
  have h2 := Real.sin_sq_add_cos_sq (radians c2.latitude)
  have h3 := Real.neg_one_le_cos (radians c2.longitude - radians c1.longitude)
  have h4 := Real.cos_le_one (radians c2.longitude - radians c1.longitude)
  nlinarith [sq_nonneg (Real.sin (radians c1.latitude) + Real.sin (radians c2.latitude)),
    sq_nonneg (Real.cos (radians c1.latitude) - Real.cos (radians c2.latitude)),
    sq_nonneg (Real.cos (radians c1.latitude) + Real.cos (radians c2.latitude))]

/-- Cosine of a latitude within [-90, 90] degrees is non-negative. -/
theorem cos_radians_nonneg {lat : ℝ} (h1 : -90 ≤ lat) (h2 : lat ≤ 90) :
    0 ≤ Real.cos (radians lat) := by
  have hπ := Real.pi_pos
  apply Real.cos_nonneg_of_mem_Icc
  constructor
  · have h : 0 ≤ (lat + 90) * π := mul_nonneg (by linarith) hπ.le
    show -(π / 2) ≤ lat * π / 180
    nlinarith
  · have h : 0 ≤ (90 - lat) * π := mul_nonneg (by linarith) hπ.le
    show lat * π / 180 ≤ π / 2
    nlinarith

/-- The haversine term is non-negative when both latitudes are in range. -/
theorem haversineP_nonneg (c1 c2 : Coordinates)
    (ha1 : -90 ≤ c1.latitude) (ha2 : c1.latitude ≤ 90)
    (hb1 : -90 ≤ c2.latitude) (hb2 : c2.latitude ≤ 90) :
    0 ≤ haversineP c1 c2 := by
  show 0 ≤ Real.sin ((radians c2.latitude - radians c1.latitude) / 2) ^ 2 +
      Real.cos (radians c1.latitude) * Real.cos (radians c2.latitude) *
        Real.sin ((radians c2.longitude - radians c1.longitude) / 2) ^ 2
  have hc1 := cos_radians_nonneg ha1 ha2
  have hc2 := cos_radians_nonneg hb1 hb2
  exact add_nonneg (sq_nonneg _) (mul_nonneg (mul_nonneg hc1 hc2) (sq_nonneg _))

/-- C3: for every coordinate pair P, the distance from P to itself is
exactly 0, with no domain error (the asin argument is 0). -/
theorem get_distance_self (c : Coordinates) : _get_distance c c = 0 := by
  have hP : haversineP c c = 0 := by
    show Real.sin ((radians c.latitude - radians c.latitude) / 2) ^ 2 +
        Real.cos (radians c.latitude) * Real.cos (radians c.latitude) *
          Real.sin ((radians c.longitude - radians c.longitude) / 2) ^ 2 = 0
    simp
  unfold _get_distance
  rw [hP]
  simp

/-- C4: the implemented haversine distance is exactly symmetric in its two
coordinate arguments. -/
theorem get_distance_symm (c1 c2 : Coordinates) :
    _get_distance c1 c2 = _get_distance c2 c1 := by
  have hP : haversineP c1 c2 = haversineP c2 c1 := by
    rw [haversineP_eq, haversineP_eq, Real.cos_sub, Real.cos_sub]
    ring
  unfold _get_distance
  rw [hP]

/-- C2: for latitudes in [-90, 90] and longitudes in [-180, 180], the
intermediate haversine value `P` passed to `asin` via `√P` lies in [0, 1],
a defensive clamp of it to [0, 1] is the identity, and `√P` lies inside
the domain [-1, 1] of `asin`, so the `asin` call never raises a domain
error — including for antipodal pairs. -/
theorem haversineP_in_unit_interval (c1 c2 : Coordinates)
    (ha1 : -90 ≤ c1.latitude) (ha2 : c1.latitude ≤ 90)
    (hb1 : -90 ≤ c2.latitude) (hb2 : c2.latitude ≤ 90)
    (hc1 : -180 ≤ c1.longitude) (hc2 : c1.longitude ≤ 180)
    (hd1 : -180 ≤ c2.longitude) (hd2 : c2.longitude ≤ 180) :
    0 ≤ haversineP c1 c2 ∧ haversineP c1 c2 ≤ 1 ∧
      min 1 (haversineP c1 c2) = haversineP c1 c2 ∧
      -1 ≤ Real.sqrt (haversineP c1 c2) ∧ Real.sqrt (haversineP c1 c2) ≤ 1 := by
  have h0 := haversineP_nonneg c1 c2 ha1 ha2 hb1 hb2
  have h1 := haversineP_le_one c1 c2
  refine ⟨h0, h1, min_eq_right h1, ?_, ?_⟩
  · linarith [Real.sqrt_nonneg (haversineP c1 c2)]
  · exact Real.sqrt_le_one.mpr h1

/-- Witness for C2 at the antipodal pair (0, 0) and (0, 180). -/
theorem haversineP_in_unit_interval_witness :
    0 ≤ haversineP ⟨0, 0⟩ ⟨0, 180⟩ ∧ haversineP ⟨0, 0⟩ ⟨0, 180⟩ ≤ 1 ∧
      min 1 (haversineP ⟨0, 0⟩ ⟨0, 180⟩) = haversineP ⟨0, 0⟩ ⟨0, 180⟩ ∧
      -1 ≤ Real.sqrt (haversineP ⟨0, 0⟩ ⟨0, 180⟩) ∧
      Real.sqrt (haversineP ⟨0, 0⟩ ⟨0, 180⟩) ≤ 1 :=
  haversineP_in_unit_interval ⟨0, 0⟩ ⟨0, 180⟩ (by norm_num) (by norm_num)
    (by norm_num) (by norm_num) (by norm_num) (by norm_num) (by norm_num) (by norm_num)

/-- C7: for well-formed inputs the distance is a non-negative real no
larger than π · 6371000 metres. -/
theorem get_distance_nonneg_bounded (c1 c2 : Coordinates)
    (ha1 : -90 ≤ c1.latitude) (ha2 : c1.latitude ≤ 90)
    (hb1 : -90 ≤ c2.latitude) (hb2 : c2.latitude ≤ 90)
    (hc1 : -180 ≤ c1.longitude) (hc2 : c1.longitude ≤ 180)
    (hd1 : -180 ≤ c2.longitude) (hd2 : c2.longitude ≤ 180) :
    0 ≤ _get_distance c1 c2 ∧ _get_distance c1 c2 ≤ π * 6371000 := by
  have harc0 : 0 ≤ Real.arcsin (Real.sqrt (haversineP c1 c2)) :=
    Real.arcsin_nonneg.mpr (Real.sqrt_nonneg _)
  have harc1 := Real.arcsin_le_pi_div_two (Real.sqrt (haversineP c1 c2))
  unfold _get_distance R_M
  constructor
  · nlinarith
  · nlinarith

/-- Witness for C7 at the pair (55.75, 37.62), (10, 10). -/
theorem get_distance_nonneg_bounded_witness :
    0 ≤ _get_distance ⟨55.75, 37.62⟩ ⟨10, 10⟩ ∧
      _get_distance ⟨55.75, 37.62⟩ ⟨10, 10⟩ ≤ π * 6371000 :=
  get_distance_nonneg_bounded ⟨55.75, 37.62⟩ ⟨10, 10⟩ (by norm_num) (by norm_num)
    (by norm_num) (by norm_num) (by norm_num) (by norm_num) (by norm_num) (by norm_num)

/-- The scan of `get_nearest_vehicle` leaves its running state unchanged
over a list in which every record carries the reference id. -/
theorem foldl_nearestStep_all_ineligible {α : Type} [LinearOrder α]
    (dist : Coordinates → Coordinates → α) (c1 : Coordinates) (id : Int) :
    ∀ (vs : List Vehicle) (acc : Option (α × Vehicle)),
      (∀ v ∈ vs, v.id = some id) →
      vs.foldl (nearestStep dist c1 id) acc = acc
  | [], _, _ => rfl
  | v :: vs, acc, h => by
    rw [List.foldl_cons]
    have hv : v.id = some id := h v (by simp)
    have hstep : nearestStep dist c1 id acc v = acc := by
      simp [nearestStep, hv]
    rw [hstep]
    exact foldl_nearestStep_all_ineligible dist c1 id vs acc
      (fun w hw => h w (by simp [hw]))

/-- C5: when every fetched vehicle carries the reference id — the eligible
candidate set is empty — `get_nearest_vehicle` returns the absent result
`none`: no exception, and in particular never the reference vehicle. -/
theorem get_nearest_vehicle_no_candidate (id : Int) (c1 : Coordinates)
    (vs : List Vehicle) (h : ∀ v ∈ vs, v.id = some id) :
    get_nearest_vehicle _get_distance id c1 vs = Option.none := by
  unfold get_nearest_vehicle
  rw [foldl_nearestStep_all_ineligible _get_distance c1 id vs Option.none h]
  rfl

/-- Witness for C5: a single-element collection holding only the reference
vehicle itself. -/
theorem get_nearest_vehicle_no_candidate_witness :
    get_nearest_vehicle _get_distance 1 ⟨55.75, 37.62⟩
      [Vehicle.mk "Toyota" "Camry" 2021 "red" 21000 55 37 (some 1)] = Option.none :=
  get_nearest_vehicle_no_candidate 1 ⟨55.75, 37.62⟩
    [Vehicle.mk "Toyota" "Camry" 2021 "red" 21000 55 37 (some 1)] (by decide)

/-- C10: whenever no fetched vehicle has a truthy id — in particular when
the inventory is empty — `add_vehicle` hits `max()` of an empty sequence,
the embedded ValueError (`none`), before any POST is issued. -/
theorem add_vehicle_raises_on_unassigned (v : Vehicle) (fetched : List Vehicle)
    (h : ∀ w ∈ fetched, w.id = Option.none) :
    add_vehicle v fetched = Option.none := by
  have hids : truthyIds fetched = [] := by
    unfold truthyIds
    rw [List.filterMap_eq_nil_iff]
    intro w hw
    simp [h w hw, truthyId]
  simp [add_vehicle, hids]

/-- Witness for C10: adding the first record to an empty inventory fails. -/
theorem add_vehicle_raises_on_unassigned_witness :
    add_vehicle (Vehicle.mk "Toyota" "Camry" 2021 "red" 21000 55 37 Option.none) []
      = Option.none :=
  add_vehicle_raises_on_unassigned
    (Vehicle.mk "Toyota" "Camry" 2021 "red" 21000 55 37 Option.none) [] (by simp)

/-- C9: when some fetched vehicle has a truthy id, `add_vehicle` succeeds
and the caller's record — mutated through the `vars(vehicle)` alias — comes
out with an assigned id and all other fields unchanged. -/
theorem add_vehicle_mutates_argument (v : Vehicle) (fetched : List Vehicle)
    (h : ∃ w ∈ fetched, truthyId w.id) :
    ∃ r, add_vehicle v fetched = some r ∧ r.id.isSome ∧ r = { v with id := r.id } := by
  obtain ⟨w, hw, hwt⟩ := h
  have hmem : ∃ n, n ∈ truthyIds fetched := by
    cases hid : w.id with
    | none => rw [hid] at hwt; simp [truthyId] at hwt
    | some n =>
      refine ⟨n, ?_⟩
      unfold truthyIds
      rw [List.mem_filterMap]
      exact ⟨w, hw, by rw [hwt, hid]; simp⟩
  obtain ⟨n, hn⟩ := hmem
  have hne : truthyIds fetched ≠ [] := by
    intro hE
    rw [hE] at hn
    exact absurd hn (List.not_mem_nil n)
  cases hmax : (truthyIds fetched).max? with
  | none => exact absurd (List.max?_eq_none_iff.mp hmax) hne
  | some m =>
    refine ⟨{ v with id := some (m + 1) }, ?_, rfl, rfl⟩
    simp [add_vehicle, hmax]

/-- Witness for C9: after the call on a record with unassigned id, the
record carries an id. -/
theorem add_vehicle_mutates_argument_witness :
    ∃ r, add_vehicle (Vehicle.mk "Toyota" "Camry" 2021 "red" 21000 55 37 Option.none)
        [Vehicle.mk "Lada" "Vesta" 2020 "blue" 10000 0 0 (some 5)] = some r ∧
      r.id.isSome ∧
      r = { Vehicle.mk "Toyota" "Camry" 2021 "red" 21000 55 37 Option.none with id := r.id } :=
  add_vehicle_mutates_argument
    (Vehicle.mk "Toyota" "Camry" 2021 "red" 21000 55 37 Option.none)
    [Vehicle.mk "Lada" "Vesta" 2020 "blue" 10000 0 0 (some 5)]
    ⟨Vehicle.mk "Lada" "Vesta" 2020 "blue" 10000 0 0 (some 5), by simp, by decide⟩

/-- C6 counterexample: at a concrete inventory with highest assigned id 5,
the POST payload built by `add_vehicle` for a fresh record already carries
`id = 6`, computed by the client as max + 1 — the id is not left for the
remote server to assign. -/
theorem add_vehicle_payload_id_client_side :
    (add_vehicle (Vehicle.mk "Toyota" "Camry" 2021 "red" 21000 55 37 Option.none)
        [Vehicle.mk "Lada" "Vesta" 2020 "blue" 10000 0 0 (some 5)]).map Vehicle.id
      = some (some 6) := by decide

/-- C6 amended: `add_vehicle` computes the new record's id client-side as
one plus the maximum truthy id of the fetched collection and stores it in
the POST payload sent to the remote create endpoint. -/
theorem add_vehicle_id_is_max_plus_one (v : Vehicle) (fetched : List Vehicle)
    (m : Int) (h : (truthyIds fetched).max? = some m) :
    add_vehicle v fetched = some { v with id := some (m + 1) } := by
  simp [add_vehicle, h]

/-- Witness for the amended C6. -/
theorem add_vehicle_id_is_max_plus_one_witness :
    add_vehicle (Vehicle.mk "Toyota" "Camry" 2021 "red" 21000 55 37 Option.none)
        [Vehicle.mk "Lada" "Vesta" 2020 "blue" 10000 0 0 (some 5)]
      = some { Vehicle.mk "Toyota" "Camry" 2021 "red" 21000 55 37 Option.none
                with id := some 6 } :=
  add_vehicle_id_is_max_plus_one
    (Vehicle.mk "Toyota" "Camry" 2021 "red" 21000 55 37 Option.none)
    [Vehicle.mk "Lada" "Vesta" 2020 "blue" 10000 0 0 (some 5)] 5 (by decide)

/-- Occurrences contributed by one record of the fetched collection: its
own parse result, once per matching parameter pair, and nothing else. -/
theorem count_filterInner (w v : Vehicle) (ps : List (String × FieldVal)) :
    (filterInner w ps).count v =
      if w = v then ps.countP (fun p => matchesParam w p) else 0 := by
  induction ps with
  | nil => simp [filterInner]
  | cons p ps ih =>
    unfold filterInner
    cases hm : matchesParam w p with
    | false => simp [hm, ih, List.countP_cons]
    | true =>
      by_cases hwv : w = v
      · subst hwv
        simp [hm, ih, List.countP_cons, List.count_cons]
      · simp [hm, ih, List.countP_cons, List.count_cons, hwv, Ne.symm hwv]

/-- Total multiplicity of a record in the output of `filter_vehicles`. -/
theorem count_filter_vehicles (params : List (String × FieldVal))
    (vs : List Vehicle) (v : Vehicle) :
    (filter_vehicles params vs).count v =
      vs.count v * params.countP (fun p => matchesParam v p) := by
  induction vs with
  | nil => simp [filter_vehicles]
  | cons w vs ih =>
    show (filterInner w params ++ filter_vehicles params vs).count v = _
    rw [List.count_append, count_filterInner, ih, List.count_cons]
    by_cases hwv : w = v
    · subst hwv
      simp
      ring
    · simp [hwv, Ne.symm hwv]

/-- C8: `filter_vehicles` combines the parameter pairs disjunctively and
with multiplicity: a vehicle is returned exactly when it matches at least
one `key, value` pair, and it appears once per pair of the parameter
mapping that it matches. -/
theorem filter_vehicles_disjunctive_multiplicity (params : List (String × FieldVal))
    (vs : List Vehicle) (v : Vehicle) (hp : 2 ≤ params.length) :
    (v ∈ filter_vehicles params vs ↔ v ∈ vs ∧ ∃ p ∈ params, matchesParam v p) ∧
    (filter_vehicles params vs).count v =
      vs.count v * params.countP (fun p => matchesParam v p) := by
  have hcount := count_filter_vehicles params vs v
  refine ⟨?_, hcount⟩
  rw [← List.count_pos_iff, hcount, CanonicallyOrderedCommSemiring.mul_pos,
    List.count_pos_iff, List.countP_pos_iff]

/-- Witness for C8: a red Toyota matching both pairs of a two-pair filter
appears twice in the output. -/
theorem filter_vehicles_disjunctive_multiplicity_witness :
    (Vehicle.mk "Toyota" "Camry" 2021 "red" 21000 55 37 (some 1) ∈
        filter_vehicles [("name", FieldVal.str "Toyota"), ("color", FieldVal.str "red")]
          [Vehicle.mk "Toyota" "Camry" 2021 "red" 21000 55 37 (some 1)] ↔
      Vehicle.mk "Toyota" "Camry" 2021 "red" 21000 55 37 (some 1) ∈
          [Vehicle.mk "Toyota" "Camry" 2021 "red" 21000 55 37 (some 1)] ∧
        ∃ p ∈ [("name", FieldVal.str "Toyota"), ("color", FieldVal.str "red")],
          matchesParam (Vehicle.mk "Toyota" "Camry" 2021 "red" 21000 55 37 (some 1)) p) ∧
    (filter_vehicles [("name", FieldVal.str "Toyota"), ("color", FieldVal.str "red")]
        [Vehicle.mk "Toyota" "Camry" 2021 "red" 21000 55 37 (some 1)]).count
        (Vehicle.mk "Toyota" "Camry" 2021 "red" 21000 55 37 (some 1)) =
      ([Vehicle.mk "Toyota" "Camry" 2021 "red" 21000 55 37 (some 1)].count
          (Vehicle.mk "Toyota" "Camry" 2021 "red" 21000 55 37 (some 1))) *
        ([("name", FieldVal.str "Toyota"), ("color", FieldVal.str "red")].countP
          (fun p => matchesParam (Vehicle.mk "Toyota" "Camry" 2021 "red" 21000 55 37 (some 1)) p)) :=
  filter_vehicles_disjunctive_multiplicity
    [("name", FieldVal.str "Toyota"), ("color", FieldVal.str "red")]
    [Vehicle.mk "Toyota" "Camry" 2021 "red" 21000 55 37 (some 1)]
    (Vehicle.mk "Toyota" "Camry" 2021 "red" 21000 55 37 (some 1)) (by decide)

/-- Invariant of the scan of `get_nearest_vehicle` started in a state that
already holds a candidate: the final state either is the initial one — and
then every eligible record of the list is at least `m0` away — or records
the first eligible element of the list realising a distance strictly below
`m0` and minimal over the list, earlier eligible elements being strictly
farther and later ones no closer. -/
theorem foldl_nearestStep_some {α : Type} [LinearOrder α]
    (dist : Coordinates → Coordinates → α) (c1 : Coordinates) (id : Int)
    (vs : List Vehicle) :
    ∀ (m0 : α) (n0 : Vehicle),
      ∃ m v, vs.foldl (nearestStep dist c1 id) (some (m0, n0)) = some (m, v) ∧
        ((m = m0 ∧ v = n0 ∧
            ∀ w ∈ vs, w.id ≠ some id → m0 ≤ dist c1 (vehicleCoord w))
         ∨ (∃ l1 l2, vs = l1 ++ v :: l2 ∧ v.id ≠ some id ∧
             m = dist c1 (vehicleCoord v) ∧ m < m0 ∧
             (∀ w ∈ l1, w.id ≠ some id → m < dist c1 (vehicleCoord w)) ∧
             (∀ w ∈ l2, w.id ≠ some id → m ≤ dist c1 (vehicleCoord w)))) := by
  induction vs with
  | nil =>
    intro m0 n0
    exact ⟨m0, n0, rfl, Or.inl ⟨rfl, rfl, by simp⟩⟩
  | cons v vs ih =>
    intro m0 n0
    rw [List.foldl_cons]
    by_cases hel : v.id ≠ some id
    · by_cases hd : dist c1 (vehicleCoord v) < m0
      · have hstep : nearestStep dist c1 id (some (m0, n0)) v
            = some (dist c1 (vehicleCoord v), v) := by
          simp [nearestStep, hel, hd]
        rw [hstep]
        obtain ⟨m, v', heq, hcase⟩ := ih (dist c1 (vehicleCoord v)) v
        refine ⟨m, v', heq, Or.inr ?_⟩
        rcases hcase with ⟨hm, hv, hall⟩ | ⟨l1, l2, hsplit, hel', hm, hlt, h1, h2⟩
        · subst hv
          subst hm
          exact ⟨[], vs, rfl, hel, rfl, hd, by simp, hall⟩
        · subst hm
          refine ⟨v :: l1, l2, by simp [hsplit], hel', rfl, lt_trans hlt hd, ?_, h2⟩
          intro w hw hwe
          rcases List.mem_cons.mp hw with rfl | hw'
          · exact hlt
          · exact h1 w hw' hwe
      · have hm0le : m0 ≤ dist c1 (vehicleCoord v) := le_of_not_lt hd
        have hstep : nearestStep dist c1 id (some (m0, n0)) v = some (m0, n0) := by
          simp [nearestStep, hel, hd]
        rw [hstep]
        obtain ⟨m, v', heq, hcase⟩ := ih m0 n0
        refine ⟨m, v', heq, ?_⟩
        rcases hcase with ⟨hm, hv, hall⟩ | ⟨l1, l2, hsplit, hel', hm, hlt, h1, h2⟩
        · refine Or.inl ⟨hm, hv, ?_⟩
          intro w hw hwe
          rcases List.mem_cons.mp hw with rfl | hw'
          · exact hm0le
          · exact hall w hw' hwe
        · subst hm
          refine Or.inr ⟨v :: l1, l2, by simp [hsplit], hel', rfl, hlt, ?_, h2⟩
          intro w hw hwe
          rcases List.mem_cons.mp hw with rfl | hw'
          · exact lt_of_lt_of_le hlt hm0le
          · exact h1 w hw' hwe
    · have hstep : nearestStep dist c1 id (some (m0, n0)) v = some (m0, n0) := by
        simp [nearestStep, hel]
      rw [hstep]
      obtain ⟨m, v', heq, hcase⟩ := ih m0 n0
      refine ⟨m, v', heq, ?_⟩
      rcases hcase with ⟨hm, hv, hall⟩ | ⟨l1, l2, hsplit, hel', hm, hlt, h1, h2⟩
      · refine Or.inl ⟨hm, hv, ?_⟩
        intro w hw hwe
        rcases List.mem_cons.mp hw with rfl | hw'
        · exact absurd hwe hel
        · exact hall w hw' hwe
      · subst hm
        refine Or.inr ⟨v :: l1, l2, by simp [hsplit], hel', rfl, hlt, ?_, h2⟩
        intro w hw hwe
        rcases List.mem_cons.mp hw with rfl | hw'
        · exact absurd hwe hel
        · exact h1 w hw' hwe

/-- The scan of `get_nearest_vehicle` from the initial state: either no
record is eligible and the state stays `none`, or the final state records
the first eligible element realising the minimum distance — earlier
eligible elements are strictly farther, later ones no closer. -/
theorem foldl_nearestStep_none {α : Type} [LinearOrder α]
    (dist : Coordinates → Coordinates → α) (c1 : Coordinates) (id : Int) :
    ∀ vs : List Vehicle,
      (vs.foldl (nearestStep dist c1 id) Option.none = Option.none ∧
        ∀ w ∈ vs, w.id = some id)
      ∨ (∃ m v l1 l2,
          vs.foldl (nearestStep dist c1 id) Option.none = some (m, v) ∧
          vs = l1 ++ v :: l2 ∧ v.id ≠ some id ∧
          m = dist c1 (vehicleCoord v) ∧
          (∀ w ∈ l1, w.id ≠ some id → m < dist c1 (vehicleCoord w)) ∧
          (∀ w ∈ l2, w.id ≠ some id → m ≤ dist c1 (vehicleCoord w)))
  | [] => Or.inl ⟨rfl, by simp⟩
  | v :: vs => by
    rw [List.foldl_cons]
    by_cases hel : v.id ≠ some id
    · have hstep : nearestStep dist c1 id Option.none v
          = some (dist c1 (vehicleCoord v), v) := by
        simp [nearestStep, hel]
      rw [hstep]
      obtain ⟨m, v', heq, hcase⟩ :=
        foldl_nearestStep_some dist c1 id vs (dist c1 (vehicleCoord v)) v
      rcases hcase with ⟨hm, hv, hall⟩ | ⟨l1, l2, hsplit, hel', hm, hlt, h1, h2⟩
      · subst hv
        subst hm
        exact Or.inr ⟨_, _, [], vs, heq, rfl, hel, rfl, by simp, hall⟩
      · subst hm
        refine Or.inr ⟨dist c1 (vehicleCoord v'), v', v :: l1, l2, heq,
          by simp [hsplit], hel', rfl, ?_, h2⟩
        intro w hw hwe
        rcases List.mem_cons.mp hw with rfl | hw'
        · exact hlt
        · exact h1 w hw' hwe
    · have hid : v.id = some id := not_not.mp hel
      have hstep : nearestStep dist c1 id Option.none v = Option.none := by
        simp [nearestStep, hel]
      rw [hstep]
      rcases foldl_nearestStep_none dist c1 id vs with ⟨heq, hall⟩ |
        ⟨m, v', l1, l2, heq, hsplit, hel', hm, h1, h2⟩
      · refine Or.inl ⟨heq, ?_⟩
        intro w hw
        rcases List.mem_cons.mp hw with rfl | hw'
        · exact hid
        · exact hall w hw'
      · refine Or.inr ⟨m, v', v :: l1, l2, heq, by simp [hsplit], hel', hm, ?_, h2⟩
        intro w hw hwe
        rcases List.mem_cons.mp hw with rfl | hw'
        · exact absurd hwe hel
        · exact h1 w hw' hwe

/-- C1: whenever the fetched list holds at least one vehicle whose id
differs from the reference id, `get_nearest_vehicle` returns an eligible
vehicle of the list whose haversine distance to the reference coordinates
is minimal among all eligible vehicles; every eligible vehicle occurring
strictly before it in fetch order is strictly farther, so on ties the
first eligible vehicle achieving the minimum wins. -/
theorem get_nearest_vehicle_argmin (id : Int) (c1 : Coordinates)
    (vs : List Vehicle) (h : ∃ v ∈ vs, v.id ≠ some id) :
    ∃ v l1 l2, get_nearest_vehicle _get_distance id c1 vs = some v ∧
      vs = l1 ++ v :: l2 ∧ v.id ≠ some id ∧
      (∀ w ∈ vs, w.id ≠ some id →
        _get_distance c1 (vehicleCoord v) ≤ _get_distance c1 (vehicleCoord w)) ∧
      (∀ w ∈ l1, w.id ≠ some id →
        _get_distance c1 (vehicleCoord v) < _get_distance c1 (vehicleCoord w)) := by
  rcases foldl_nearestStep_none _get_distance c1 id vs with ⟨heq, hall⟩ |
    ⟨m, v, l1, l2, heq, hsplit, hel, hm, h1, h2⟩
  · obtain ⟨w, hw, hwe⟩ := h
    exact absurd (hall w hw) hwe
  · subst hm
    refine ⟨v, l1, l2, ?_, hsplit, hel, ?_, h1⟩
    · unfold get_nearest_vehicle
      rw [heq]
      rfl
    · intro w hw hwe
      rw [hsplit] at hw
      rcases List.mem_append.mp hw with hw' | hw'
      · exact le_of_lt (h1 w hw' hwe)
      · rcases List.mem_cons.mp hw' with rfl | hw''
        · exact le_refl _
        · exact h2 w hw'' hwe

/-- Witness for C1: the specification's nearest-neighbor scenario, with the
reference vehicle id 1 at (55.75, 37.62) and candidates id 2 at
(55.76, 37.63) and id 3 at (10, 10). -/
theorem get_nearest_vehicle_argmin_witness :
    (∃ v ∈ [Vehicle.mk "B" "b" 2020 "red" 2 55.76 37.63 (some 2),
        Vehicle.mk "C" "c" 2019 "blue" 3 10 10 (some 3)], v.id ≠ some 1) ∧
    (∃ v l1 l2,
      get_nearest_vehicle _get_distance 1 ⟨55.75, 37.62⟩
        [Vehicle.mk "B" "b" 2020 "red" 2 55.76 37.63 (some 2),
          Vehicle.mk "C" "c" 2019 "blue" 3 10 10 (some 3)] = some v ∧
      [Vehicle.mk "B" "b" 2020 "red" 2 55.76 37.63 (some 2),
        Vehicle.mk "C" "c" 2019 "blue" 3 10 10 (some 3)] = l1 ++ v :: l2 ∧
      v.id ≠ some 1 ∧
      (∀ w ∈ [Vehicle.mk "B" "b" 2020 "red" 2 55.76 37.63 (some 2),
          Vehicle.mk "C" "c" 2019 "blue" 3 10 10 (some 3)], w.id ≠ some 1 →
        _get_distance ⟨55.75, 37.62⟩ (vehicleCoord v) ≤
          _get_distance ⟨55.75, 37.62⟩ (vehicleCoord w)) ∧
      (∀ w ∈ l1, w.id ≠ some 1 →
        _get_distance ⟨55.75, 37.62⟩ (vehicleCoord v) <
          _get_distance ⟨55.75, 37.62⟩ (vehicleCoord w))) :=
  ⟨⟨Vehicle.mk "B" "b" 2020 "red" 2 55.76 37.63 (some 2), by simp, by decide⟩,
    get_nearest_vehicle_argmin 1 ⟨55.75, 37.62⟩
      [Vehicle.mk "B" "b" 2020 "red" 2 55.76 37.63 (some 2),
        Vehicle.mk "C" "c" 2019 "blue" 3 10 10 (some 3)]
      ⟨Vehicle.mk "B" "b" 2020 "red" 2 55.76 37.63 (some 2), by simp, by decide⟩⟩
